import Mathlib

/-!
Shallow embedding of the bottomless replication engine:
`src/s3.rs` (the `Replicator` used by the WAL hook: `write`, `commit`, `boot`)
and `cli/src/main.rs` (`uuid_to_datetime`, `list_generations`, `detect_db`).

Rust strings are modelled as `List Char` (all keys handled here are ASCII, so
byte indexing and char indexing coincide); byte buffers as `List Nat`; the
object store as a function from keys to optional contents.  Machine-integer
arithmetic that can overflow (the `u64` limit counter, the reversed-timestamp
subtractions) is modelled with explicit wrap-around modulo 2^64 / 2^32,
matching Rust release-build semantics; debug builds would panic instead at
the same spots, which is noted where it matters.
-/

namespace Bottomless

abbrev Str := List Char
abbrev Bytes := List Nat

/-- The remote object store: a map from key to stored bytes. -/
abbrev Store := Str → Option Bytes

/-- `put_object`: overwrite the value stored under `k`. -/
def putObject (s : Store) (k : Str) (v : Bytes) : Store :=
  fun q => if q = k then some v else s q

/-! ## s3.rs: the write buffer and `commit` -/

def PAGE_SIZE : Nat := 4096

def zeroPadTo (w : Nat) (ds : List Char) : List Char :=
  List.replicate (w - ds.length) '0' ++ ds

/-- Rust `format!("{:012}", n)` for an `i64` value. -/
def pad12 (n : Int) : Str :=
  if n < 0 then '-' :: zeroPadTo 11 (Nat.toDigits 10 n.natAbs)
  else zeroPadTo 12 (Nat.toDigits 10 n.natAbs)

/-- The key built by `commit` for a buffered write at byte offset `offset`:
`format!("{}-{:012}", self.db_name, offset / Self::PAGE_SIZE as i64)`. -/
def commitKey (dbName : Str) (offset : Int) : Str :=
  dbName ++ '-' :: pad12 (Int.tdiv offset 4096)

/-- Environment for `commit`: which `put_object` calls succeed.
The result of an upload attempt depends only on the key and body sent,
modelling a deterministic network oracle. -/
structure S3Env where
  uploadOk : Str → Bytes → Bool

/-- One replicator session (the fields of `Replicator` that `commit` uses). -/
structure Replicator where
  writeBuffer : List (Int × Bytes)
  dbName : Str

/-- The loop body of `commit`: walk the buffered `(offset, bytes)` pairs in
iteration order; reject a page whose length is not `PAGE_SIZE`; upload each
page, stopping at the first failed upload.  Returns the result, the store
after the uploads that did happen, and the trace of performed uploads. -/
def commitLoop (env : S3Env) (dbName : Str) :
    List (Int × Bytes) → Store → Except String Unit × Store × List (Str × Bytes)
  | [], s => (.ok (), s, [])
  | (offset, b) :: rest, s =>
    if b.length ≠ PAGE_SIZE then
      (.error "Unexpected write not equal to page size", s, [])
    else
      if env.uploadOk (commitKey dbName offset) b then
        let r := commitLoop env dbName rest (putObject s (commitKey dbName offset) b)
        (r.1, r.2.1, (commitKey dbName offset, b) :: r.2.2)
      else (.error "failed to send page to object store", s, [])

structure CommitOut where
  res : Except String Unit
  repl : Replicator
  store : Store
  trace : List (Str × Bytes)

/-- `Replicator::commit`: run the upload loop over the write buffer; clear the
buffer only when the whole batch succeeded, keep it untouched otherwise. -/
def commit (env : S3Env) (r : Replicator) (s : Store) : CommitOut :=
  let out := commitLoop env r.dbName r.writeBuffer s
  match out.1 with
  | .ok _ => ⟨.ok (), { r with writeBuffer := [] }, out.2.1, out.2.2⟩
  | .error e => ⟨.error e, r, out.2.1, out.2.2⟩

/-- Store-independent result of the commit loop (analysis helper). -/
def commitRes (env : S3Env) (dbName : Str) : List (Int × Bytes) → Except String Unit
  | [] => .ok ()
  | (offset, b) :: rest =>
    if b.length ≠ PAGE_SIZE then .error "Unexpected write not equal to page size"
    else if env.uploadOk (commitKey dbName offset) b then commitRes env dbName rest
    else .error "failed to send page to object store"

/-- Store-independent upload trace of the commit loop (analysis helper). -/
def commitTrace (env : S3Env) (dbName : Str) : List (Int × Bytes) → List (Str × Bytes)
  | [] => []
  | (offset, b) :: rest =>
    if b.length ≠ PAGE_SIZE then []
    else if env.uploadOk (commitKey dbName offset) b then
      (commitKey dbName offset, b) :: commitTrace env dbName rest
    else []

/-- Apply a list of uploads to a store, in order. -/
def applyPuts : List (Str × Bytes) → Store → Store
  | [], s => s
  | (k, v) :: rest, s => applyPuts rest (putObject s k v)

/-! ## s3.rs: `boot`

`boot` lists the bucket once (the code's own FIXME notes that the listing is
paged and that `is_truncated`/`next_marker` are not followed), downloads each
listed object, and parses a page number out of the key, skipping keys whose
page number does not parse.  The environment presents the bucket listing as
its successive pages; the single `list_objects` call that `boot` makes sees
the first page, and a continuation marker exists exactly when further pages
do.  `get_object` and the body download are modelled as one fallible step. -/

structure BootEnv where
  pages : List (List (Option Str))
  getObject : Str → Except String Bytes

/-- Index of the last `'-'` in the key (`str::rfind('-')`). -/
def rfindDash : Str → Option Nat
  | [] => none
  | c :: rest =>
    match rfindDash rest with
    | some i => some (i + 1)
    | none => if c = '-' then some 0 else none

def digitVal (c : Char) : Option Nat :=
  if '0' ≤ c ∧ c ≤ '9' then some (c.toNat - '0'.toNat) else none

def parseDigits : Str → Option Nat
  | [] => none
  | cs => go cs 0
where
  go : Str → Nat → Option Nat
  | [], acc => some acc
  | c :: rest, acc =>
    match digitVal c with
    | some d => go rest (acc * 10 + d)
    | none => none

/-- Rust `str::parse::<i32>()`: optional sign, decimal digits, range check. -/
def parseI32 (s : Str) : Option Int :=
  match s with
  | '+' :: ds => (parseDigits ds).bind fun n =>
      if n ≤ 2147483647 then some (n : Int) else none
  | '-' :: ds => (parseDigits ds).bind fun n =>
      if n ≤ 2147483648 then some (-(n : Int)) else none
  | ds => (parseDigits ds).bind fun n =>
      if n ≤ 2147483647 then some (n : Int) else none

/-- `key.rfind('-').map(|index| key[index + 1..].parse::<i32>().ok())`. -/
def parsePageNo (key : Str) : Option (Option Int) :=
  (rfindDash key).map fun i => parseI32 (key.drop (i + 1))

/-- The body of `boot`'s `for obj in objs` loop.  A `None` key aborts; a
failed download aborts; a key whose page number does not parse is logged and
skipped (`_ => error!(...)`), and iteration continues. -/
def bootLoop (env : BootEnv) : List (Option Str) → Except String (List (Int × Bytes))
  | [] => .ok []
  | o :: rest =>
    match o with
    | none => .error "Failed to get key for an object"
    | some key =>
      match env.getObject key with
      | .error e => .error e
      | .ok body =>
        match parsePageNo key with
        | some (some pgno) => (bootLoop env rest).map fun ps => (pgno, body) :: ps
        | _ => bootLoop env rest

/-- `Replicator::boot`: one unpaginated `list_objects` call (sees only the
first page of the listing), then the download/parse loop. -/
def boot (env : BootEnv) : Except String (List (Int × Bytes)) :=
  match env.pages.head? with
  | none => .ok []
  | some objs => bootLoop env objs

/-! ## The uuid crate interface used by the CLI

The `uuid` crate is an external dependency; it is modelled at its interface:
`Uuid::try_parse` on the hyphenated (36-char) and simple (32-char) textual
forms — the urn/braced forms it also accepts are omitted as unused here —
and `Uuid::get_timestamp().map(|ts| ts.to_unix())` for version-7 identifiers
(48-bit big-endian unix milliseconds in bytes 0..5), the version the
replicator mints for generations; the gregorian-tick conversion for the
v1/v6 layouts is omitted as unused.  A `Uuid` is its 16 bytes. -/

abbrev Uuid := List Nat

def hexVal (c : Char) : Option Nat :=
  if '0' ≤ c ∧ c ≤ '9' then some (c.toNat - '0'.toNat)
  else if 'a' ≤ c ∧ c ≤ 'f' then some (c.toNat - 'a'.toNat + 10)
  else if 'A' ≤ c ∧ c ≤ 'F' then some (c.toNat - 'A'.toNat + 10)
  else none

/-- Turn a run of hex characters into bytes, two characters per byte. -/
def hexBytes : Str → Option (List Nat)
  | [] => some []
  | [_] => none
  | c1 :: c2 :: rest =>
    match hexVal c1, hexVal c2 with
    | some h, some l => (hexBytes rest).map fun bs => (h * 16 + l) :: bs
    | _, _ => none

/-- `Uuid::try_parse` on the hyphenated and simple forms. -/
def uuidTryParse (s : Str) : Option Uuid :=
  if s.length = 36 then
    if s.get? 8 = some '-' ∧ s.get? 13 = some '-' ∧
       s.get? 18 = some '-' ∧ s.get? 23 = some '-' then
      hexBytes (s.take 8 ++ (s.drop 9).take 4 ++ (s.drop 14).take 4 ++
                (s.drop 19).take 4 ++ s.drop 24)
    else none
  else if s.length = 32 then hexBytes s
  else none

def uuidByte (u : Uuid) (i : Nat) : Nat := (u.get? i).getD 0

def uuidVersion (u : Uuid) : Nat := uuidByte u 6 / 16

/-- `uuid.get_timestamp().map(|ts| ts.to_unix())` for a version-7 id. -/
def uuidTsUnix (u : Uuid) : Option (Nat × Nat) :=
  if uuidVersion u = 7 then
    let ms := uuidByte u 0 * 2 ^ 40 + uuidByte u 1 * 2 ^ 32 + uuidByte u 2 * 2 ^ 24 +
              uuidByte u 3 * 2 ^ 16 + uuidByte u 4 * 2 ^ 8 + uuidByte u 5
    some (ms / 1000, ms % 1000 * 1000000)
  else none

/-! ## cli/main.rs: `uuid_to_datetime`

`let (seconds, nanos) = (253370761200 - seconds, 999000000 - nanos);`
on `u64`/`u32` values, then `chrono::NaiveDateTime::from_timestamp_opt`
with `NaiveDateTime::MIN` as the fallback.  The subtractions are modelled
with wrap-around (release semantics; a debug build would panic on
underflow).  A datetime is its `(seconds since epoch, subsecond nanos)`
pair; chrono orders these lexicographically.  The chrono representable
range (years -262144 to 262143) is the guard in `from_timestamp_opt`. -/

def FAR_FUTURE : Nat := 253370761200

def sub64 (a b : Nat) : Nat := (a + 2 ^ 64 - b % 2 ^ 64) % 2 ^ 64

def sub32 (a b : Nat) : Nat := (a + 2 ^ 32 - b % 2 ^ 32) % 2 ^ 32

/-- Reinterpret a `u64` bit pattern as an `i64` (`seconds as i64`). -/
def castI64 (x : Nat) : Int :=
  if x % 2 ^ 64 < 2 ^ 63 then (x % 2 ^ 64 : Nat) else (x % 2 ^ 64 : Nat) - 2 ^ 64

/-- First / last day number (days since the unix epoch) representable by
`chrono::NaiveDate`. -/
def DATE_MIN : Int := -96465658
def DATE_MAX : Int := 95026601

def CHRONO_MIN_SECS : Int := DATE_MIN * 86400
def CHRONO_MAX_SECS : Int := (DATE_MAX + 1) * 86400 - 1

def NAIVEDATETIME_MIN : Int × Nat := (CHRONO_MIN_SECS, 0)

def fromTimestampOpt (secs : Int) (nanos : Nat) : Option (Int × Nat) :=
  if nanos ≥ 2000000000 then none
  else if secs < CHRONO_MIN_SECS ∨ secs > CHRONO_MAX_SECS then none
  else some (secs, nanos)

/-- The reversed-timestamp decode applied to a raw stored `(seconds, nanos)`
value (the body of `uuid_to_datetime` after `get_timestamp`). -/
def rawToDatetime (s n : Nat) : Int × Nat :=
  (fromTimestampOpt (castI64 (sub64 FAR_FUTURE s)) (sub32 999000000 n)).getD
    NAIVEDATETIME_MIN

/-- `uuid_to_datetime`: decode a generation id's creation time. -/
def uuid_to_datetime (u : Uuid) : Int × Nat :=
  let t := (uuidTsUnix u).getD (0, 0)
  rawToDatetime t.1 t.2

/-- `NaiveDateTime::date()` as a day number (chrono uses the euclidean
quotient of the epoch seconds by 86400). -/
def dateOf (dt : Int × Nat) : Int := Int.ediv dt.1 86400

/-- Total nanoseconds of a datetime; chrono's lexicographic order on
`(seconds, nanos)` agrees with the order of this value. -/
def dtToNanos (dt : Int × Nat) : Int := dt.1 * 1000000000 + dt.2

/-! ## cli/main.rs: `list_generations`

The paginated listing environment: the k-th issued `list_objects` request
(the first with no marker, each later one with the marker returned by its
predecessor) yields the k-th element of `pages`; an element is `none` when
that response carries no `common_prefixes`, and a response carries a
continuation marker exactly when further pages follow.  Individual listed
prefixes are optional, mirroring `prefix.prefix: Option<String>`.
`get_remote_change_counter` / `get_last_consistent_frame` (used only in
verbose mode) live in the replicator module, which is not part of the
sources here; modelled from the spec as fallible metadata reads whose error
aborts the listing, folded into one oracle `metaOk`. -/

structure CliEnv where
  pages : List (Option (List (Option Str)))
  metaOk : Uuid → Except String Unit

/-- `&prefix[self.db_name.len() + 1..prefix.len() - 1]`: strip the database
name, its trailing separator and the final `'/'` from a common prefix. -/
def stripMid (dbName : Str) (p : Str) : Str :=
  (p.drop (dbName.length + 1)).dropLast

/-- The wrapping `u64` decrement `limit -= 1` (release semantics; a debug
build would panic when `limit` is `0`). -/
def decWrap (l : Nat) : Nat := (l + (2 ^ 64 - 1)) % 2 ^ 64

/-- Outcome of processing one page of prefixes: either the loop returned
early because the limit was exhausted, or it should continue with the
remaining limit. -/
inductive LsStep where
  | stop (emitted : List Uuid)
  | next (emitted : List Uuid) (limit : Nat)

/-- The verbose-mode metadata fetches guarding an emission: performed (and
able to abort) only when `verbose` is set. -/
def metaStep (verbose : Bool) (metaOk : Uuid → Except String Unit) (u : Uuid) :
    Except String Unit :=
  if verbose then metaOk u else .ok ()

/-- `for prefix in prefixes { ... }`: the body of `list_generations`' page
loop.  A prefix that fails `Uuid::try_parse` aborts with an error (`?`);
a prefix outside the date bounds is skipped without touching the limit
(`continue`); an emitted generation (and a `None` prefix, which falls
through the `if let`) decrements the limit, returning early when it
reaches zero.  Emission (`println!("{}", uuid)`) is tracked as the list of
emitted generation ids. -/
def lgEntries (dbName : Str) (older newer : Option Int) (verbose : Bool)
    (metaOk : Uuid → Except String Unit) :
    List (Option Str) → Nat → List Uuid → Except String LsStep
  | [], limit, acc => .ok (.next acc limit)
  | e :: rest, limit, acc =>
    match e with
    | none =>
      let l := decWrap limit
      if l = 0 then .ok (.stop acc) else lgEntries dbName older newer verbose metaOk rest l acc
    | some p =>
      match uuidTryParse (stripMid dbName p) with
      | none => .error "invalid generation uuid"
      | some u =>
        if dateOf (uuid_to_datetime u) < newer.getD DATE_MIN then
          lgEntries dbName older newer verbose metaOk rest limit acc
        else if dateOf (uuid_to_datetime u) > older.getD DATE_MAX then
          lgEntries dbName older newer verbose metaOk rest limit acc
        else
          match metaStep verbose metaOk u with
          | .error e => .error e
          | .ok _ =>
            let l := decWrap limit
            if l = 0 then .ok (.stop (acc ++ [u]))
            else lgEntries dbName older newer verbose metaOk rest l (acc ++ [u])

/-- The outer `loop` of `list_generations`: one page per issued request; a
response without `common_prefixes` prints "No generations found" and
returns; otherwise process the page and continue while a marker remains. -/
def lgPages (dbName : Str) (older newer : Option Int) (verbose : Bool)
    (metaOk : Uuid → Except String Unit) :
    List (Option (List (Option Str))) → Nat → List Uuid → Except String (List Uuid)
  | [], _, acc => .ok acc
  | pg :: rest, limit, acc =>
    match pg with
    | none => .ok acc
    | some entries =>
      match lgEntries dbName older newer verbose metaOk entries limit acc with
      | .error e => .error e
      | .ok (.stop acc') => .ok acc'
      | .ok (.next acc' limit') =>
        match rest with
        | [] => .ok acc'
        | _ => lgPages dbName older newer verbose metaOk rest limit' acc'

/-- `Replicator::list_generations(limit, older_than, newer_than, verbose)`,
returning the generations it prints.  `limit.unwrap_or(u64::MAX)`. -/
def list_generations (env : CliEnv) (limit : Option Nat) (older newer : Option Int)
    (verbose : Bool) (dbName : Str) : Except String (List Uuid) :=
  lgPages dbName older newer verbose env.metaOk env.pages (limit.getD (2 ^ 64 - 1)) []

/-- Specification-side emission test, in the spec's own phrasing: a decoded
generation is kept exactly when `newer_than ≤ date` and `date ≤ older_than`,
each bound inclusive and only applied when supplied. -/
def emitTest (dbName : Str) (older newer : Option Int) (e : Option Str) : Option Uuid :=
  e.bind fun p => (uuidTryParse (stripMid dbName p)).bind fun u =>
    if newer.getD DATE_MIN ≤ dateOf (uuid_to_datetime u) ∧
       dateOf (uuid_to_datetime u) ≤ older.getD DATE_MAX then some u else none

/-- A listed entry is well formed when it is present and its stripped middle
segment parses as a generation id. -/
def wfEntry (dbName : Str) (e : Option Str) : Bool :=
  (e.bind fun p => uuidTryParse (stripMid dbName p)).isSome

/-! ## cli/main.rs: `detect_db` -/

/-- `Replicator::detect_db`: any transport error of the listing request is
turned into `None`; otherwise take the first common prefix and strip the
38-character suffix (`'-'`, 36-character uuid, `'/'`), provided the
character right before that suffix is the `'-'` separator. -/
def detect_db (resp : Except String (Option (List (Option Str)))) : Option Str :=
  match resp with
  | .error _ => none
  | .ok r =>
    match r with
    | none => none
    | some lst =>
      match lst.head? with
      | none => none
      | some cp =>
        match cp with
        | none => none
        | some p =>
          if p.get? (p.length - 38) = some '-' then some (p.take (p.length - 38))
          else none

/-! ## Lemmas about `commit` -/

/-- The last value uploaded to key `q` by a trace of puts. -/
def lastPut : List (Str × Bytes) → Str → Option Bytes
  | [], _ => none
  | (k, v) :: rest, q =>
    match lastPut rest q with
    | some w => some w
    | none => if q = k then some v else none

lemma applyPuts_apply (t : List (Str × Bytes)) (s : Store) (k : Str) :
    applyPuts t s k =
      match lastPut t k with
      | some v => some v
      | none => s k := by
  induction t generalizing s with
  | nil => rfl
  | cons hd rest ih =>
    obtain ⟨q, v⟩ := hd
    rw [applyPuts, ih, lastPut]
    cases lastPut rest k with
    | some w => rfl
    | none =>
      by_cases hk : k = q
      · simp [putObject, hk]
      · simp [putObject, hk]

/-- Replaying the same trace of puts a second time changes nothing. -/
lemma applyPuts_idem (t : List (Str × Bytes)) (s : Store) :
    applyPuts t (applyPuts t s) = applyPuts t s := by
  funext k
  rw [applyPuts_apply, applyPuts_apply]
  cases h : lastPut t k <;> simp [h]

/-- The commit loop decomposes into its store-independent result, its
store-independent upload trace, and the application of that trace. -/
lemma commitLoop_eq (env : S3Env) (dbName : Str) (buf : List (Int × Bytes)) (s : Store) :
    commitLoop env dbName buf s =
      (commitRes env dbName buf, applyPuts (commitTrace env dbName buf) s,
       commitTrace env dbName buf) := by
  induction buf generalizing s with
  | nil => rfl
  | cons hd rest ih =>
    obtain ⟨offset, b⟩ := hd
    by_cases hb : b.length ≠ PAGE_SIZE
    · simp [commitLoop, commitRes, commitTrace, hb, applyPuts]
    · by_cases hu : env.uploadOk (commitKey dbName offset) b
      · simp [commitLoop, commitRes, commitTrace, hb, hu, ih, applyPuts]
      · simp [commitLoop, commitRes, commitTrace, hb, hu, applyPuts]

lemma commitRes_ok_iff (env : S3Env) (dbName : Str) (buf : List (Int × Bytes)) :
    commitRes env dbName buf = .ok () ↔
      ∀ p ∈ buf, p.2.length = PAGE_SIZE ∧ env.uploadOk (commitKey dbName p.1) p.2 = true := by
  induction buf with
  | nil => simp [commitRes]
  | cons hd rest ih =>
    obtain ⟨offset, b⟩ := hd
    by_cases hb : b.length ≠ PAGE_SIZE
    · simp only [commitRes, if_pos hb]
      constructor
      · intro h; exact absurd h (by simp)
      · intro h; exact absurd (h (offset, b) (by simp)).1 hb
    · push_neg at hb
      by_cases hu : env.uploadOk (commitKey dbName offset) b
      · simp [commitRes, hb, hu, ih]
      · simp only [commitRes, hb, if_neg (by simp [hb] : ¬ b.length ≠ PAGE_SIZE), if_neg hu]
        constructor
        · intro h; exact absurd h (by simp)
        · intro h; exact absurd (h (offset, b) (by simp)).2 hu

lemma commitTrace_of_ok (env : S3Env) (dbName : Str) (buf : List (Int × Bytes))
    (h : commitRes env dbName buf = .ok ()) :
    commitTrace env dbName buf = buf.map fun p => (commitKey dbName p.1, p.2) := by
  induction buf with
  | nil => rfl
  | cons hd rest ih =>
    obtain ⟨offset, b⟩ := hd
    rw [commitRes_ok_iff] at h
    have h1 := h (offset, b) (by simp)
    have hb : ¬ b.length ≠ PAGE_SIZE := by simp [h1.1]
    rw [commitTrace, if_neg hb, if_pos h1.2, List.map_cons]
    refine congrArg _ (ih ?_)
    rw [commitRes_ok_iff]
    exact fun p hp => h p (List.mem_cons_of_mem _ hp)

/-- `commit` when the whole batch passes: buffer cleared, all pages put. -/
lemma commit_of_ok (env : S3Env) (r : Replicator) (s : Store)
    (h : commitRes env r.dbName r.writeBuffer = .ok ()) :
    commit env r s = ⟨.ok (), { r with writeBuffer := [] },
      applyPuts (commitTrace env r.dbName r.writeBuffer) s,
      commitTrace env r.dbName r.writeBuffer⟩ := by
  simp only [commit, commitLoop_eq, h]

/-- `commit` when the batch fails: buffer kept, the successful puts stand. -/
lemma commit_of_error (env : S3Env) (r : Replicator) (s : Store) (e : String)
    (h : commitRes env r.dbName r.writeBuffer = .error e) :
    commit env r s = ⟨.error e, r,
      applyPuts (commitTrace env r.dbName r.writeBuffer) s,
      commitTrace env r.dbName r.writeBuffer⟩ := by
  simp only [commit, commitLoop_eq, h]

lemma commitRes_singleton_ok (env : S3Env) (db : Str) (o : Int) (b : Bytes)
    (hb : b.length = PAGE_SIZE) (hu : env.uploadOk (commitKey db o) b = true) :
    commitRes env db [(o, b)] = .ok () := by
  simp [commitRes, hb, hu]

/-! ## Claims about `commit` -/

/-- Whether an `anyhow::Result` is `Ok`. -/
def exOk {ε α : Type} : Except ε α → Bool
  | .ok _ => true
  | .error _ => false

set_option maxRecDepth 4000

/-- Claim C1 (counterexample): the claimed key shape
`<db_name>-<generation>/<page_no:012>` is refuted on the code.  A concrete
successful commit of page 0 for database `mydb` uploads under the key
`mydb-000000000000`, and no choice of generation string makes that key fit
the claimed shape (the claimed shape is at least one character longer,
always containing an extra generation segment and a `'/'`). -/
theorem c1_counterexample :
    (commit ⟨fun _ _ => true⟩ ⟨[(0, List.replicate 4096 0)], "mydb".toList⟩
        (fun _ => none)).trace =
      [("mydb-000000000000".toList, List.replicate 4096 0)] ∧
    ¬ ∃ g : Str, "mydb-000000000000".toList =
        "mydb".toList ++ '-' :: (g ++ '/' :: "000000000000".toList) := by
  constructor
  · have hlen : (List.replicate 4096 (0 : Nat)).length = PAGE_SIZE := by
      simp only [List.length_replicate, PAGE_SIZE]
    have hres := commitRes_singleton_ok ⟨fun _ _ => true⟩ "mydb".toList 0 _ hlen rfl
    have hkey : commitKey "mydb".toList 0 = "mydb-000000000000".toList := by decide
    rw [commit_of_ok ⟨fun _ _ => true⟩ ⟨[(0, List.replicate 4096 0)], "mydb".toList⟩
      (fun _ => none) hres]
    rw [commitTrace_of_ok ⟨fun _ _ => true⟩ "mydb".toList [(0, List.replicate 4096 0)] hres,
      List.map_cons, List.map_nil, hkey]
  · rintro ⟨g, hg⟩
    have h := congrArg List.length hg
    simp [List.length_append] at h

/-- Claim C1 (amended): for every buffered pair `(offset, bytes)`, a
successful commit uploads that page as one object whose key is exactly
`<db_name>-<offset / PAGE_SIZE zero-padded to 12 digits>`; the key carries
no generation identifier and no `'/'` separator. -/
theorem c1_commit_key_format (env : S3Env) (r : Replicator) (s : Store)
    (h : (commit env r s).res = .ok ()) :
    (commit env r s).trace =
      r.writeBuffer.map fun p => (r.dbName ++ '-' :: pad12 (Int.tdiv p.1 4096), p.2) := by
  have hres : commitRes env r.dbName r.writeBuffer = .ok () := by
    cases hr : commitRes env r.dbName r.writeBuffer with
    | ok u => cases u; rfl
    | error e => rw [commit_of_error env r s e hr] at h; exact absurd h (by simp)
  rw [commit_of_ok env r s hres]
  simpa [commitKey] using commitTrace_of_ok env r.dbName r.writeBuffer hres

theorem c1_commit_key_format_witness :
    (commit ⟨fun _ _ => true⟩ ⟨[(0, List.replicate 4096 0)], "db".toList⟩
        (fun _ => none)).res = .ok () ∧
    (commit ⟨fun _ _ => true⟩ ⟨[(0, List.replicate 4096 0)], "db".toList⟩
        (fun _ => none)).trace =
      [((0 : Int), List.replicate 4096 0)].map
        (fun p => ("db".toList ++ '-' :: pad12 (Int.tdiv p.1 4096), p.2)) := by
  have hlen : (List.replicate 4096 (0 : Nat)).length = PAGE_SIZE := by
    simp only [List.length_replicate, PAGE_SIZE]
  have hres := commitRes_singleton_ok ⟨fun _ _ => true⟩ "db".toList 0 _ hlen rfl
  have h1 : (commit ⟨fun _ _ => true⟩ ⟨[(0, List.replicate 4096 0)], "db".toList⟩
      (fun _ => none)).res = .ok () := by
    rw [commit_of_ok ⟨fun _ _ => true⟩ ⟨[(0, List.replicate 4096 0)], "db".toList⟩
      (fun _ => none) hres]
  exact ⟨h1, c1_commit_key_format _ _ _ h1⟩

/-- Claim C2: `commit` clears the write buffer exactly when every buffered
page was validated (length `PAGE_SIZE`) and uploaded successfully; on any
failure it returns an error and leaves the buffer (indeed the whole
replicator state) unchanged, so a retry re-commits the same buffered set. -/
theorem c2_commit_clears_iff (env : S3Env) (r : Replicator) (s : Store) :
    (exOk (commit env r s).res = true ↔
        ∀ p ∈ r.writeBuffer, p.2.length = PAGE_SIZE ∧
          env.uploadOk (commitKey r.dbName p.1) p.2 = true) ∧
    (commit env r s).repl =
      (if exOk (commit env r s).res then { r with writeBuffer := [] } else r) ∧
    ((commit env r s).repl.writeBuffer = [] ↔ exOk (commit env r s).res = true) := by
  by_cases hall : ∀ p ∈ r.writeBuffer, p.2.length = PAGE_SIZE ∧
      env.uploadOk (commitKey r.dbName p.1) p.2 = true
  · have hok := (commitRes_ok_iff env r.dbName r.writeBuffer).mpr hall
    rw [commit_of_ok env r s hok]
    exact ⟨iff_of_true rfl hall, by simp [exOk], iff_of_true rfl rfl⟩
  · obtain ⟨e, he⟩ : ∃ e, commitRes env r.dbName r.writeBuffer = .error e := by
      cases hc : commitRes env r.dbName r.writeBuffer with
      | ok u =>
        cases u
        exact absurd (fun p hp => (commitRes_ok_iff env r.dbName r.writeBuffer).mp hc p hp) hall
      | error e => exact ⟨e, rfl⟩
    have hbuf : r.writeBuffer ≠ [] := by
      intro hb
      exact hall fun p hp => absurd (hb ▸ hp) (List.not_mem_nil p)
    rw [commit_of_error env r s e he]
    exact ⟨iff_of_false (by simp [exOk]) hall, by simp [exOk],
      iff_of_false hbuf (by simp [exOk])⟩

theorem c2_commit_clears_iff_witness :
    (exOk (commit ⟨fun _ _ => true⟩ ⟨[(0, List.replicate 4096 0)], "db".toList⟩
        (fun _ => none)).res = true ↔
      ∀ p ∈ [((0 : Int), List.replicate 4096 (0 : Nat))], p.2.length = PAGE_SIZE ∧
        (fun (_ : Str) (_ : Bytes) => true) (commitKey "db".toList p.1) p.2 = true) ∧
    (commit ⟨fun _ _ => true⟩ ⟨[(0, List.replicate 4096 0)], "db".toList⟩
        (fun _ => none)).repl =
      (if exOk (commit ⟨fun _ _ => true⟩ ⟨[(0, List.replicate 4096 0)], "db".toList⟩
          (fun _ => none)).res
       then { writeBuffer := [], dbName := "db".toList }
       else ⟨[(0, List.replicate 4096 0)], "db".toList⟩) ∧
    ((commit ⟨fun _ _ => true⟩ ⟨[(0, List.replicate 4096 0)], "db".toList⟩
        (fun _ => none)).repl.writeBuffer = [] ↔
      exOk (commit ⟨fun _ _ => true⟩ ⟨[(0, List.replicate 4096 0)], "db".toList⟩
        (fun _ => none)).res = true) :=
  c2_commit_clears_iff ⟨fun _ _ => true⟩ ⟨[(0, List.replicate 4096 0)], "db".toList⟩
    (fun _ => none)

/-- Claim C7: committing the same write-buffer contents twice — a retry
after a failure, or a second commit call after a success — leaves the
remote store exactly as one commit does: after a success the buffer is
empty so nothing is uploaded, and a retry replays the identical uploads,
which overwrite each key with the value it already holds. -/
theorem c7_commit_idempotent (env : S3Env) (r : Replicator) (s : Store) :
    (commit env (commit env r s).repl (commit env r s).store).store =
      (commit env r s).store := by
  cases h : commitRes env r.dbName r.writeBuffer with
  | ok u =>
    cases u
    rw [commit_of_ok env r s h]
    show (commit env { r with writeBuffer := [] }
      (applyPuts (commitTrace env r.dbName r.writeBuffer) s)).store =
      applyPuts (commitTrace env r.dbName r.writeBuffer) s
    rw [commit_of_ok env { r with writeBuffer := [] } _ rfl]
    rfl
  | error e =>
    rw [commit_of_error env r s e h]
    show (commit env r (applyPuts (commitTrace env r.dbName r.writeBuffer) s)).store =
      applyPuts (commitTrace env r.dbName r.writeBuffer) s
    rw [commit_of_error env r _ e h]
    exact applyPuts_idem _ _

/-! ## Claims about `boot` and malformed keys -/

/-- Claim C3 (the code violates it, by its own FIXME): `boot` issues a
single `list_objects` call and never follows the continuation marker.  On a
bucket whose listing spans two pages — page 1 holding `mydb-000000000000`
with a marker, page 2 holding `mydb-000000000001` — `boot` returns only the
first page's object, even though the second key is present and parses
perfectly well, so the enumeration silently drops objects instead of
visiting each one exactly once. -/
theorem c3_boot_drops_second_page :
    boot ⟨[[some "mydb-000000000000".toList], [some "mydb-000000000001".toList]],
        fun _ => .ok [7]⟩ = .ok [(0, [7])] ∧
    parsePageNo "mydb-000000000001".toList = some (some 1) := by
  constructor
  · rfl
  · decide

/-- Claim C4 (counterexample): in `boot`, a key that cannot be decoded into
a page number does not abort the enumeration.  With a single listing page
`[mydb-000000000000, garbage, mydb-000000000001]`, the malformed middle key
is skipped and the entry after it is still processed, so the result contains
both well-formed pages — refuting "no further entries of that enumeration
are processed". -/
theorem c4_counterexample :
    boot ⟨[[some "mydb-000000000000".toList, some "garbage".toList,
            some "mydb-000000000001".toList]], fun _ => .ok [7]⟩ =
      .ok [(0, [7]), (1, [7])] ∧
    parsePageNo "garbage".toList = none := by
  constructor
  · rfl
  · decide

/-- Claim C4 (amended): a listed prefix that cannot be decoded into a valid
generation identifier aborts `list_generations` with an error, but `boot`
does not abort on a key whose page number cannot be decoded: it logs the
malformed key, skips it, and continues with the remaining entries (the skip
requires the object download itself to have succeeded, since `boot` fetches
the object before parsing the key). -/
theorem c4_malformed_key_behavior :
    (∀ (env : BootEnv) (key : Str) (rest : List (Option Str)) (bs : Bytes),
      (∀ n : Int, parsePageNo key ≠ some (some n)) →
      env.getObject key = .ok bs →
      bootLoop env (some key :: rest) = bootLoop env rest) ∧
    (∀ (dbName bad : Str) (rest : List (Option Str))
      (more : List (Option (List (Option Str)))) (limit : Option Nat)
      (older newer : Option Int) (verbose : Bool) (metaOk : Uuid → Except String Unit),
      uuidTryParse (stripMid dbName bad) = none →
      list_generations ⟨some (some bad :: rest) :: more, metaOk⟩ limit older newer
        verbose dbName = .error "invalid generation uuid") := by
  constructor
  · intro env key rest bs hbad hget
    rw [bootLoop, hget]
    cases hp : parsePageNo key with
    | none => rfl
    | some o =>
      cases o with
      | none => rfl
      | some n => exact absurd hp (hbad n)
  · intro dbName bad rest more limit older newer verbose metaOk hbad
    simp [list_generations, lgPages, lgEntries, hbad]

theorem c4_malformed_key_behavior_witness :
    bootLoop ⟨[], fun _ => .ok [7]⟩ [some "garbage".toList, some "mydb-000000000001".toList] =
      bootLoop ⟨[], fun _ => .ok [7]⟩ [some "mydb-000000000001".toList] ∧
    list_generations ⟨[some [some "xx".toList]], fun _ => .ok ()⟩ none none none
      false "db".toList = .error "invalid generation uuid" :=
  ⟨c4_malformed_key_behavior.1 ⟨[], fun _ => .ok [7]⟩ "garbage".toList
      [some "mydb-000000000001".toList] [7]
      (fun n h => by
        rw [show parsePageNo "garbage".toList = none from by decide] at h
        exact absurd h (by simp)) rfl,
    c4_malformed_key_behavior.2 "db".toList "xx".toList [] [] none none none
      false (fun _ => .ok ()) (by decide)⟩

/-! ## Claim about the reversed-timestamp transform -/

/-- For stored values inside the meaningful range (seconds at most the far
future constant, nanos at most 999000000 as produced for millisecond
timestamps), no wrap-around happens and `from_timestamp_opt` succeeds, so
the decode is the plain pair of subtractions. -/
lemma rawToDatetime_in_range (s n : Nat) (hs : s ≤ FAR_FUTURE) (hn : n ≤ 999000000) :
    rawToDatetime s n = (((FAR_FUTURE - s : Nat) : Int), 999000000 - n) := by
  have hs64 : sub64 FAR_FUTURE s = FAR_FUTURE - s := by
    unfold sub64 FAR_FUTURE at *
    omega
  have hn32 : sub32 999000000 n = 999000000 - n := by
    unfold sub32
    omega
  have hmod : (FAR_FUTURE - s) % 2 ^ 64 = FAR_FUTURE - s :=
    Nat.mod_eq_of_lt (by unfold FAR_FUTURE at *; omega)
  have hcast : castI64 (FAR_FUTURE - s) = ((FAR_FUTURE - s : Nat) : Int) := by
    unfold castI64
    rw [hmod]
    rw [if_pos (show FAR_FUTURE - s < 2 ^ 63 by unfold FAR_FUTURE at *; omega)]
  unfold rawToDatetime
  rw [hs64, hn32, hcast]
  unfold fromTimestampOpt
  rw [if_neg (by omega), if_neg (by
    unfold CHRONO_MIN_SECS CHRONO_MAX_SECS DATE_MIN DATE_MAX FAR_FUTURE at *
    omega)]
  rfl

/-- Claim C5: the generation-timestamp decode is strictly antitone — for
stored values `(s1, n1)` strictly earlier than `(s2, n2)` (both within the
meaningful range of the scheme), the decoded datetime of the second is
strictly below that of the first, so ascending enumeration of the stored
(encoded) identifiers yields newest-first creation times. -/
theorem c5_decode_antitone (s1 n1 s2 n2 : Nat)
    (hs1 : s1 ≤ FAR_FUTURE) (hs2 : s2 ≤ FAR_FUTURE)
    (hn1 : n1 ≤ 999000000) (hn2 : n2 ≤ 999000000)
    (hlt : s1 * 1000000000 + n1 < s2 * 1000000000 + n2) :
    dtToNanos (rawToDatetime s2 n2) < dtToNanos (rawToDatetime s1 n1) := by
  rw [rawToDatetime_in_range s1 n1 hs1 hn1, rawToDatetime_in_range s2 n2 hs2 hn2]
  simp only [dtToNanos]
  unfold FAR_FUTURE at *
  omega

theorem c5_decode_antitone_witness :
    (0 : Nat) ≤ FAR_FUTURE ∧ (1 : Nat) ≤ FAR_FUTURE ∧
    (0 : Nat) ≤ 999000000 ∧ (0 : Nat) * 1000000000 + 0 < 1 * 1000000000 + 0 ∧
    dtToNanos (rawToDatetime 1 0) < dtToNanos (rawToDatetime 0 0) :=
  ⟨by decide, by decide, by decide, by decide,
    c5_decode_antitone 0 0 1 0 (by decide) (by decide) (by decide) (by decide) (by decide)⟩

/-! ## Claims about `detect_db` -/

/-- Claim C8: on a bucket whose first listed common prefix is
`<name>-<36-character generation id>/`, `detect_db` returns the name with
the 38-character suffix stripped; when the character right before that
fixed-length suffix is not the `'-'` separator it returns `none`; in
particular `mydb-6f9c2c66-1f3a-11ee-9c4e-0242ac120002/` yields `mydb`. -/
theorem c8_detect_db :
    (∀ (name gen : Str) (rest : List (Option Str)),
      gen.length = 36 →
      detect_db (.ok (some (some (name ++ '-' :: (gen ++ ['/'])) :: rest))) = some name) ∧
    (∀ (p : Str) (rest : List (Option Str)),
      p.get? (p.length - 38) ≠ some '-' →
      detect_db (.ok (some (some p :: rest))) = none) ∧
    detect_db (.ok (some [some "mydb-6f9c2c66-1f3a-11ee-9c4e-0242ac120002/".toList])) =
      some "mydb".toList := by
  refine ⟨?_, ?_, by decide⟩
  · intro name gen rest hgen
    have hlen : (name ++ '-' :: (gen ++ ['/'])).length = name.length + 38 := by
      simp [hgen]
    have hsub : (name ++ '-' :: (gen ++ ['/'])).length - 38 = name.length := by omega
    have hget : (name ++ '-' :: (gen ++ ['/'])).get? name.length = some '-' := by
      rw [List.get?_append_right (le_refl name.length)]
      simp
    simp only [detect_db, List.head?, hsub]
    rw [if_pos hget]
    rw [show name.length = name.length + ([] : Str).length by simp]
    rw [show name ++ '-' :: (gen ++ ['/']) = (name ++ []) ++ '-' :: (gen ++ ['/']) by simp]
    rw [List.take_left' (by simp)]
    simp
  · intro p rest hp
    simp only [detect_db, List.head?]
    rw [if_neg hp]

theorem c8_detect_db_witness :
    ("6f9c2c66-1f3a-11ee-9c4e-0242ac120002".toList.length = 36 ∧
      detect_db (.ok (some [some ("mydb".toList ++ '-' ::
          ("6f9c2c66-1f3a-11ee-9c4e-0242ac120002".toList ++ ['/']))])) =
        some "mydb".toList) ∧
    ("xy".toList.get? ("xy".toList.length - 38) ≠ some '-' ∧
      detect_db (.ok (some [some "xy".toList])) = none) :=
  ⟨⟨by decide, c8_detect_db.1 "mydb".toList "6f9c2c66-1f3a-11ee-9c4e-0242ac120002".toList
      [] (by decide)⟩,
   ⟨by decide, c8_detect_db.2.1 "xy".toList [] (by decide)⟩⟩

/-- Claim C10: `detect_db` never propagates a transport error: every failed
listing request yields `none`, the same answer an empty bucket (a response
with no common prefixes) produces. -/
theorem c10_detect_db_swallows_errors (e : String) :
    detect_db (.error e) = none ∧ detect_db (.ok none) = none ∧
    detect_db (.error e) = detect_db (.ok none) :=
  ⟨rfl, rfl, rfl⟩

/-! ## Lemmas about `list_generations` -/

lemma decWrap_eq (l : Nat) (h1 : 1 ≤ l) (h2 : l ≤ 2 ^ 64 - 1) : decWrap l = l - 1 := by
  unfold decWrap
  omega

lemma emitTest_some (dbName : Str) (older newer : Option Int) (p : Str) (u : Uuid)
    (hu : uuidTryParse (stripMid dbName p) = some u) :
    emitTest dbName older newer (some p) =
      if newer.getD DATE_MIN ≤ dateOf (uuid_to_datetime u) ∧
         dateOf (uuid_to_datetime u) ≤ older.getD DATE_MAX then some u else none := by
  simp [emitTest, hu]

lemma emitTest_isSome_wf (dbName : Str) (older newer : Option Int) (e : Option Str)
    (h : (emitTest dbName older newer e).isSome = true) : wfEntry dbName e = true := by
  cases e with
  | none => simp [emitTest] at h
  | some p =>
    cases hu : uuidTryParse (stripMid dbName p) with
    | none => simp [emitTest, hu] at h
    | some u => simp [wfEntry, hu]

/-- As long as the limit exceeds the number of entries left, the page loop
never stops early: it emits exactly the entries passing the date filter, in
order, and decrements the limit once per emission. -/
lemma lgEntries_no_stop (dbName : Str) (older newer : Option Int)
    (metaOk : Uuid → Except String Unit) (entries : List (Option Str)) :
    ∀ (limit : Nat) (acc : List Uuid),
      (∀ e ∈ entries, wfEntry dbName e = true) →
      entries.length < limit → limit ≤ 2 ^ 64 - 1 →
      lgEntries dbName older newer false metaOk entries limit acc =
        .ok (.next (acc ++ entries.filterMap (emitTest dbName older newer))
          (limit - (entries.filterMap (emitTest dbName older newer)).length)) := by
  induction entries with
  | nil => intro limit acc _ _ _; simp [lgEntries]
  | cons e rest ih =>
    intro limit acc hwf hlt hle
    have hwfe := hwf e (List.mem_cons_self _ _)
    have hwfr : ∀ x ∈ rest, wfEntry dbName x = true :=
      fun x hx => hwf x (List.mem_cons_of_mem _ hx)
    have hrl : rest.length < limit := by
      simp only [List.length_cons] at hlt
      omega
    cases e with
    | none => simp [wfEntry] at hwfe
    | some p =>
      cases hu : uuidTryParse (stripMid dbName p) with
      | none => rw [wfEntry] at hwfe; simp [hu] at hwfe
      | some u =>
        by_cases h1 : dateOf (uuid_to_datetime u) < newer.getD DATE_MIN
        · have het : emitTest dbName older newer (some p) = none := by
            rw [emitTest_some dbName older newer p u hu, if_neg (by omega)]
          simp only [lgEntries, hu]
          rw [if_pos h1, ih limit acc hwfr hrl hle]
          simp [List.filterMap_cons, het]
        · by_cases h2 : dateOf (uuid_to_datetime u) > older.getD DATE_MAX
          · have het : emitTest dbName older newer (some p) = none := by
              rw [emitTest_some dbName older newer p u hu, if_neg (by omega)]
            simp only [lgEntries, hu]
            rw [if_neg h1, if_pos h2, ih limit acc hwfr hrl hle]
            simp [List.filterMap_cons, het]
          · have het : emitTest dbName older newer (some p) = some u := by
              rw [emitTest_some dbName older newer p u hu, if_pos (by omega)]
            have hlim1 : 1 ≤ limit := by omega
            have hdw : decWrap limit = limit - 1 := decWrap_eq limit hlim1 hle
            have hne : ¬ (limit - 1 = 0) := by
              simp only [List.length_cons] at hlt
              omega
            simp only [lgEntries, hu]
            rw [if_neg h1, if_neg h2]
            rw [show metaStep false metaOk u = Except.ok () from rfl]
            rw [hdw, if_neg hne]
            rw [ih (limit - 1) (acc ++ [u]) hwfr (by
              simp only [List.length_cons] at hlt
              omega) (by omega)]
            have harith : limit - 1 -
                (List.filterMap (emitTest dbName older newer) rest).length =
                limit - ((List.filterMap (emitTest dbName older newer) rest).length + 1) := by
              omega
            simp [List.filterMap_cons, het, harith]

/-- A single well-formed listing page with no limit: the emitted set is
exactly the date-filtered set. -/
lemma list_generations_single_page (dbName : Str) (older newer : Option Int)
    (metaOk : Uuid → Except String Unit) (entries : List (Option Str))
    (hwf : ∀ e ∈ entries, wfEntry dbName e = true)
    (hlen : entries.length ≤ 2 ^ 64 - 2) :
    list_generations ⟨[some entries], metaOk⟩ none older newer false dbName =
      .ok (entries.filterMap (emitTest dbName older newer)) := by
  unfold list_generations lgPages
  simp only [Option.getD_none]
  rw [lgEntries_no_stop dbName older newer metaOk entries (2 ^ 64 - 1) [] hwf
    (by omega) (by omega)]
  simp

/-- Claim C6: a generation reaches the output of `list_generations` exactly
when its decoded date `d` satisfies `newer_than ≤ d ≤ older_than`, each
bound inclusive and only applied when supplied; concretely, for generations
decoding to 2023-01-01, 2023-06-01 and 2023-12-01 (epoch days 19358, 19509,
19692), bounds `older_than` = 2023-07-01 (day 19539) and `newer_than` =
2023-02-01 (day 19389) yield exactly the 2023-06-01 generation. -/
theorem c6_filter_correctness :
    (∀ (dbName : Str) (older newer : Option Int) (metaOk : Uuid → Except String Unit)
      (entries : List (Option Str)),
      (∀ e ∈ entries, wfEntry dbName e = true) →
      entries.length ≤ 2 ^ 64 - 2 →
      list_generations ⟨[some entries], metaOk⟩ none older newer false dbName =
        .ok (entries.filterMap (emitTest dbName older newer))) ∧
    list_generations
      ⟨[some [some "db-e4eb0f96-f980-7000-8000-000000000000/".toList,
              some "db-e4e805f6-b580-7000-8000-000000000000/".toList,
              some "db-e4e4578a-f180-7000-8000-000000000000/".toList]],
        fun _ => .ok ()⟩ none (some 19539) (some 19389) false "db".toList =
      .ok [[228, 232, 5, 246, 181, 128, 112, 0, 128, 0, 0, 0, 0, 0, 0, 0]] := by
  constructor
  · intro dbName older newer metaOk entries hwf hlen
    exact list_generations_single_page dbName older newer metaOk entries hwf hlen
  · rfl

theorem c6_filter_correctness_witness :
    (∀ e ∈ [some "db-e4eb0f96-f980-7000-8000-000000000000/".toList,
            some "db-e4e805f6-b580-7000-8000-000000000000/".toList],
      wfEntry "db".toList e = true) ∧
    ([some "db-e4eb0f96-f980-7000-8000-000000000000/".toList,
      some "db-e4e805f6-b580-7000-8000-000000000000/".toList].length ≤ 2 ^ 64 - 2) ∧
    list_generations
      ⟨[some [some "db-e4eb0f96-f980-7000-8000-000000000000/".toList,
              some "db-e4e805f6-b580-7000-8000-000000000000/".toList]],
        fun _ => .ok ()⟩ none (some 19539) (some 19389) false "db".toList =
      .ok ([some "db-e4eb0f96-f980-7000-8000-000000000000/".toList,
            some "db-e4e805f6-b580-7000-8000-000000000000/".toList].filterMap
        (emitTest "db".toList (some 19539) (some 19389))) :=
  ⟨by decide, by decide,
    c6_filter_correctness.1 "db".toList (some 19539) (some 19389) (fun _ => .ok ())
      [some "db-e4eb0f96-f980-7000-8000-000000000000/".toList,
       some "db-e4e805f6-b580-7000-8000-000000000000/".toList] (by decide) (by decide)⟩

/-- Claim C9: `list_generations` with `limit = Some(0)` on a bucket holding
at least one (in-range) generation prefix does not return an empty result:
the wrapping decrement `0 - 1` underflows to `u64::MAX` before the zero
test (a debug build would panic right there), so the call emits everything,
exactly as the unlimited call does. -/
theorem c9_limit_zero_unbounded (dbName : Str) (older newer : Option Int)
    (metaOk : Uuid → Except String Unit) (e0 : Option Str) (rest : List (Option Str))
    (hall : ∀ e ∈ e0 :: rest, (emitTest dbName older newer e).isSome = true)
    (hlen : (e0 :: rest).length ≤ 2 ^ 64 - 2) :
    list_generations ⟨[some (e0 :: rest)], metaOk⟩ (some 0) older newer false dbName =
      list_generations ⟨[some (e0 :: rest)], metaOk⟩ none older newer false dbName ∧
    list_generations ⟨[some (e0 :: rest)], metaOk⟩ (some 0) older newer false dbName =
      .ok ((e0 :: rest).filterMap (emitTest dbName older newer)) ∧
    (e0 :: rest).filterMap (emitTest dbName older newer) ≠ [] ∧
    decWrap 0 = 2 ^ 64 - 1 := by
  have h0 := hall e0 (List.mem_cons_self _ _)
  have hwf : ∀ e ∈ e0 :: rest, wfEntry dbName e = true :=
    fun e he => emitTest_isSome_wf dbName older newer e (hall e he)
  have hwfr : ∀ e ∈ rest, wfEntry dbName e = true :=
    fun e he => hwf e (List.mem_cons_of_mem _ he)
  have hrl : rest.length ≤ 2 ^ 64 - 3 := by
    simp only [List.length_cons] at hlen
    omega
  cases e0 with
  | none => simp [emitTest] at h0
  | some p0 =>
    cases hu : uuidTryParse (stripMid dbName p0) with
    | none => simp [emitTest, hu] at h0
    | some u0 =>
      have hrange : newer.getD DATE_MIN ≤ dateOf (uuid_to_datetime u0) ∧
          dateOf (uuid_to_datetime u0) ≤ older.getD DATE_MAX := by
        by_contra hc
        rw [emitTest_some dbName older newer p0 u0 hu, if_neg hc] at h0
        simp at h0
      have het : emitTest dbName older newer (some p0) = some u0 := by
        rw [emitTest_some dbName older newer p0 u0 hu, if_pos hrange]
      have hdw : decWrap 0 = 2 ^ 64 - 1 := by
        unfold decWrap
        omega
      have hrun : list_generations ⟨[some (some p0 :: rest)], metaOk⟩ (some 0) older newer
          false dbName = .ok ((some p0 :: rest).filterMap (emitTest dbName older newer)) := by
        unfold list_generations lgPages
        simp only [Option.getD_some, lgEntries, hu]
        rw [if_neg (by omega), if_neg (by omega)]
        rw [show metaStep false metaOk u0 = Except.ok () from rfl]
        rw [hdw, if_neg (by omega)]
        rw [lgEntries_no_stop dbName older newer metaOk rest (2 ^ 64 - 1) ([] ++ [u0]) hwfr
          (by omega) (by omega)]
        simp [List.filterMap_cons, het]
      refine ⟨?_, hrun, ?_, hdw⟩
      · rw [hrun, list_generations_single_page dbName older newer metaOk (some p0 :: rest)
          hwf hlen]
      · simp [List.filterMap_cons, het]

theorem c9_limit_zero_unbounded_witness :
    (∀ e ∈ [some "db-e4e805f6-b580-7000-8000-000000000000/".toList],
      (emitTest "db".toList none none e).isSome = true) ∧
    ([some "db-e4e805f6-b580-7000-8000-000000000000/".toList].length ≤ 2 ^ 64 - 2) ∧
    (list_generations ⟨[some [some "db-e4e805f6-b580-7000-8000-000000000000/".toList]],
        fun _ => .ok ()⟩ (some 0) none none false "db".toList =
      list_generations ⟨[some [some "db-e4e805f6-b580-7000-8000-000000000000/".toList]],
        fun _ => .ok ()⟩ none none none false "db".toList ∧
    list_generations ⟨[some [some "db-e4e805f6-b580-7000-8000-000000000000/".toList]],
        fun _ => .ok ()⟩ (some 0) none none false "db".toList =
      .ok ([some "db-e4e805f6-b580-7000-8000-000000000000/".toList].filterMap
        (emitTest "db".toList none none)) ∧
    [some "db-e4e805f6-b580-7000-8000-000000000000/".toList].filterMap
        (emitTest "db".toList none none) ≠ [] ∧
    decWrap 0 = 2 ^ 64 - 1) :=
  ⟨by decide, by decide,
    c9_limit_zero_unbounded "db".toList none none (fun _ => .ok ())
      (some "db-e4e805f6-b580-7000-8000-000000000000/".toList) [] (by decide) (by decide)⟩

end Bottomless
